import Mathlib

/-!
# Kedastral — shallow embedding and verification of spec claims

This file embeds the core of the Kedastral predictive-autoscaling repository
(Go) in Lean 4 and settles the frozen claims about it.

Modelling conventions:
* Go `float64` is modelled as `ℚ` (exact rational arithmetic); Go `int` as `ℤ`.
* `math.Ceil` / `math.Floor` followed by `int(...)` conversion become
  `ratCeil` / `ratFloor` (proven equal to `Int.ceil` / `Int.floor`);
  `math.Round` (half away from zero) is `goRound`.
* Go integer division truncates toward zero and is modelled by `Int.tdiv`,
  and Go `%` by `Int.tmod`.
* Go maps keyed by small integers are modelled as association lists with
  unique keys; map iteration order never matters in the modelled code paths
  (results are either looked up pointwise or sorted afterwards).
* Error strings drop the single quotes that the Go sources place around
  field names (e.g. Go `no valid rows with 'value' field` is rendered
  `no valid rows with value field`); no claim depends on the quoting.
-/

deriving instance DecidableEq for Except

namespace Kedastral

set_option maxRecDepth 100000

/-- Kernel-computable floor of a rational (agrees with `Int.floor`,
see `ratFloor_eq`).  Used because the `FloorRing ℚ` projections do not
reduce under `decide`. -/
def ratFloor (q : ℚ) : ℤ := q.num / (q.den : ℤ)

/-- Kernel-computable ceiling of a rational (agrees with `Int.ceil`). -/
def ratCeil (q : ℚ) : ℤ := -ratFloor (-q)

/-- Go `math.Round` (round half away from zero) followed by `int(...)`. -/
def goRound (q : ℚ) : ℤ :=
  if 0 ≤ q then ratFloor (q + 1/2) else ratCeil (q - 1/2)

/-- Go conversion `int(f)` for a `float64` `f`: truncation toward zero. -/
def goTrunc (q : ℚ) : ℤ :=
  if 0 ≤ q then ratFloor q else ratCeil q

/-! ## Capacity planner — `pkg/capacity` (`ToReplicas` and helpers) -/

/-- Source `capacity.Policy`: how forecasted load maps to replicas. -/
structure Policy where
  TargetPerPod : ℚ
  Headroom : ℚ
  LeadTimeSeconds : ℤ
  MinReplicas : ℤ
  MaxReplicas : ℤ
  UpMaxFactorPerStep : ℚ
  DownMaxPercentPerStep : ℤ
  PrewarmWindowSteps : ℤ
  RoundingMode : String
  deriving DecidableEq, Repr

/-- The `---- sanitize policy ----` block at the top of `ToReplicas`,
applied field by field in source order (the `MaxReplicas` rule reads the
already-sanitised `MinReplicas`, and the two `DownMaxPercentPerStep` rules
chain). -/
def sanitizePolicy (p : Policy) : Policy :=
  let target := if p.TargetPerPod ≤ 0 then 1 else p.TargetPerPod
  let headroom := if p.Headroom < 1 then 1 else p.Headroom
  let minR := if p.MinReplicas < 0 then 0 else p.MinReplicas
  let maxR := if 0 < p.MaxReplicas ∧ p.MaxReplicas < minR then minR else p.MaxReplicas
  let up := if p.UpMaxFactorPerStep ≤ 0 then 2 else p.UpMaxFactorPerStep
  let down0 := if p.DownMaxPercentPerStep < 0 then 0 else p.DownMaxPercentPerStep
  let down := if 100 < down0 then 100 else down0
  let pw := if p.PrewarmWindowSteps < 0 then 0 else p.PrewarmWindowSteps
  ⟨target, headroom, p.LeadTimeSeconds, minR, maxR, up, down, pw, p.RoundingMode⟩

/-- Defaulting of `stepSec`: `stepSec <= 0` becomes 60 (part of the sanitize block). -/
def sanitizeStep (stepSec : ℤ) : ℤ :=
  if stepSec ≤ 0 then 60 else stepSec

/-- Source `capacity.roundPods`: fractional pods to integer pods by rounding mode. -/
def roundPods (x : ℚ) (mode : String) : ℤ :=
  if mode = "floor" then ratFloor x
  else if mode = "round" then goRound x
  else ratCeil x

/-- Source `capacity.clampBounds`: clamp to `[lo, hi]`, `hi = 0` meaning unbounded. -/
def clampBounds (x lo hi : ℤ) : ℤ :=
  if 0 < hi ∧ hi < x then hi
  else if x < lo then lo
  else x

/-- Source `capacity.clampChange`: rate-limit `next` against `prev`.  A non-positive
`prev` is treated as 0 (cold start): the request is allowed but capped by
`⌈1 · upFactor⌉` when `upFactor > 0`. -/
def clampChange (prev next : ℤ) (upFactor : ℚ) (downPct : ℤ) : ℤ :=
  let prev := if prev < 0 then 0 else prev
  if prev = 0 then
    if 0 < upFactor then
      let maxUp := ratCeil ((1 : ℚ) * upFactor)
      if maxUp < next then maxUp else next
    else next
  else
    let maxUp := ratCeil ((prev : ℚ) * upFactor)
    let minDown := ratFloor ((prev : ℚ) * (1 - (downPct : ℚ) / 100))
    if maxUp < next then maxUp
    else if next < minDown then minDown
    else next

/-- The per-step demand pick inside the `ToReplicas` loop: `jStart`/`jEnd`
saturate at the last index and `need` is the max over `adj[jStart..jEnd]`
starting from `0.0`. -/
def needAt (adj : List ℚ) (i0 pw i : ℕ) : ℚ :=
  let n := adj.length
  let jStart := i + i0
  let jStart := if n ≤ jStart then n - 1 else jStart
  let jEnd := jStart + pw
  let jEnd := if n ≤ jEnd then n - 1 else jEnd
  ((List.range (jEnd + 1 - jStart)).map (fun k => adj.getD (jStart + k) 0)).foldl
    (fun need v => if need < v then v else need) 0

/-- One iteration of the `ToReplicas` loop body (policy already sanitised):
round, bound A, change clamp, bound B. -/
def planStep (p : Policy) (adj : List ℚ) (i0 pw i : ℕ) (prevOut : ℤ) : ℤ :=
  let need := needAt adj i0 pw i
  let desired := roundPods need p.RoundingMode
  let desired := clampBounds desired p.MinReplicas p.MaxReplicas
  let desired := clampChange prevOut desired p.UpMaxFactorPerStep p.DownMaxPercentPerStep
  clampBounds desired p.MinReplicas p.MaxReplicas

/-- The `for i := 0; i < len(forecast); i++` loop of `ToReplicas`, carrying
`prevOut` from step to step. -/
def planLoop (p : Policy) (adj : List ℚ) (i0 pw : ℕ) :
    ℕ → ℕ → ℤ → List ℤ
  | 0, _, _ => []
  | count + 1, i, prevOut =>
    let d := planStep p adj i0 pw i prevOut
    d :: planLoop p adj i0 pw count (i + 1) d

/-- Source `capacity.ToReplicas`: forecasted load series to desired replicas. -/
def ToReplicas (prev : ℤ) (forecast : List ℚ) (stepSec : ℤ) (p : Policy) : List ℤ :=
  if forecast = [] then []
  else
    let p := sanitizePolicy p
    let step := sanitizeStep stepSec
    let adj := forecast.map (fun v => (if v < 0 then 0 else v) / p.TargetPerPod * p.Headroom)
    let i0raw := ratCeil ((p.LeadTimeSeconds : ℚ) / (step : ℚ))
    let i0 := (if i0raw < 0 then 0 else i0raw).toNat
    let pw := p.PrewarmWindowSteps.toNat
    let prevOut := clampBounds prev p.MinReplicas p.MaxReplicas
    planLoop p adj i0 pw forecast.length 0 prevOut

/-- The step-0 value that claim C4 asserts for `prev = 0`, written from the
claim/spec wording (not from the source): "the rounded, bounds-clamped
demand capped by `⌈1 · upMaxFactorPerStep⌉` (the cold-start branch),
re-clamped to `[minReplicas, maxReplicas]` afterwards", with the demand,
lead-time offset and sanitisation as specified. -/
def claimedColdStart (forecast : List ℚ) (stepSec : ℤ) (p : Policy) : ℤ :=
  let p := sanitizePolicy p
  let step := sanitizeStep stepSec
  let adj := forecast.map (fun v => (if v < 0 then 0 else v) / p.TargetPerPod * p.Headroom)
  let i0raw := ratCeil ((p.LeadTimeSeconds : ℚ) / (step : ℚ))
  let i0 := (if i0raw < 0 then 0 else i0raw).toNat
  let pw := p.PrewarmWindowSteps.toNat
  let need := needAt adj i0 pw 0
  let desired := roundPods need p.RoundingMode
  let desired := clampBounds desired p.MinReplicas p.MaxReplicas
  let capUp := ratCeil ((1 : ℚ) * p.UpMaxFactorPerStep)
  let desired := if capUp < desired then capUp else desired
  clampBounds desired p.MinReplicas p.MaxReplicas

/-! ## Models — `pkg/models` (`FeatureFrame`, `Forecast`, `BaselineModel`) -/

/-- One row of a `models.FeatureFrame` (`map[string]float64`), restricted to
the keys the embedded code reads or writes: `value`, `hour`, `timestamp`,
`day`.  `none` models an absent key. -/
structure FeatureRow where
  value : Option ℚ := none
  hour : Option ℚ := none
  timestamp : Option ℚ := none
  day : Option ℚ := none
  deriving DecidableEq, Repr

/-- Source `models.FeatureFrame`: ordered feature rows. -/
structure FeatureFrame where
  Rows : List FeatureRow
  deriving DecidableEq, Repr

/-- Source `models.Forecast`. -/
structure Forecast where
  Metric : String
  Values : List ℚ
  StepSec : ℤ
  Horizon : ℤ
  deriving DecidableEq, Repr

/-- Source `models.BaselineModel`.  The Go `map[int]float64` seasonality table is an
association list with unique keys (only lookup, size and pointwise update are
ever used, so iteration order is immaterial). -/
structure BaselineModel where
  metric : String
  stepSec : ℤ
  horizon : ℤ
  seasonality : List (ℤ × ℚ)
  deriving DecidableEq, Repr

/-- Source `models.NewBaselineModel`. -/
def NewBaselineModel (metric : String) (stepSec horizon : ℤ) : BaselineModel :=
  ⟨metric, stepSec, horizon, []⟩

/-- The EMA fold of `computeEMA`: `ema = alpha*v + (1-alpha)*ema` over the
window tail, seeded with the window head. -/
def emaFold (alpha : ℚ) (seed : ℚ) (t : List ℚ) : ℚ :=
  t.foldl (fun ema v => alpha * v + (1 - alpha) * ema) seed

/-- Source `models.computeEMA`: EMA over the most recent `n` points with
`alpha = 2/(len(window)+1)`; 0 on empty input. -/
def computeEMA (values : List ℚ) (n : ℕ) : ℚ :=
  let start := if n < values.length then values.length - n else 0
  match values.drop start with
  | [] => 0
  | h :: t => emaFold (2 / ((t.length : ℚ) + 2)) h t

/-- The per-hour observations `Train` accumulates: values of rows that carry
both `value` and `hour` with `int(hour) = h` (the loop only sums hours in
`[0, 24)`, which is implied when `h` ranges over `0..23`). -/
def hourValues (rows : List FeatureRow) (h : ℤ) : List ℚ :=
  rows.filterMap (fun r =>
    match r.value, r.hour with
    | some v, some hq => if goTrunc hq = h then some v else none
    | _, _ => none)

/-- Source `BaselineModel.Train`: store the hour-of-day mean for every hour with at
least two observations, keeping previously learned hours; empty history is a
no-op. -/
def Train (m : BaselineModel) (history : FeatureFrame) : BaselineModel :=
  if history.Rows = [] then m
  else
    let updates := (List.range 24).filterMap (fun h =>
      let vs := hourValues history.Rows (h : ℤ)
      if 2 ≤ vs.length then some ((h : ℤ), vs.sum / (vs.length : ℚ)) else none)
    { m with seasonality :=
        updates ++ m.seasonality.filter (fun e => updates.all (fun u => u.1 ≠ e.1)) }

/-- Source `BaselineModel.Predict`: EMA base forecast with last-value floor,
non-negativity clamp, and optional hour-of-day seasonality blend. -/
def Predict (m : BaselineModel) (features : FeatureFrame) : Except String Forecast :=
  if features.Rows = [] then .error "features cannot be empty"
  else
    let values := features.Rows.filterMap (fun r => r.value)
    if values = [] then .error "no value field found in features"
    else
      let ema5 := computeEMA values 5
      let ema30 := computeEMA values 30
      let base0 := 7/10 * ema5 + 3/10 * ema30
      let lastValue := values.getLastD 0
      let base1 := if 2 ≤ values.length ∧ base0 < lastValue then lastValue else base0
      let base := if base1 < 0 then 0 else base1
      let numSteps0 := Int.tdiv m.horizon m.stepSec
      let numSteps := if numSteps0 ≤ 0 then 1 else numSteps0
      let currentHour : ℤ :=
        match (features.Rows.getLastD {}).hour with
        | some hq => goTrunc hq
        | none => -1
      let vals := (List.range numSteps.toNat).map (fun (i : ℕ) =>
        let v :=
          if 0 ≤ currentHour ∧ 0 < m.seasonality.length then
            let hoursAhead := Int.tdiv ((i : ℤ) * m.stepSec) 3600
            let futureHour := Int.tmod (currentHour + hoursAhead) 24
            match m.seasonality.lookup futureHour with
            | some seasonalMean => 8/10 * base + 2/10 * seasonalMean
            | none => base
          else base
        if v < 0 then 0 else v)
      .ok ⟨m.metric, vals, m.stepSec, m.horizon⟩

/-! ## Feature builder — `pkg/features` (`Builder.BuildFeatures`) -/

/-- A Go `any` value as it can appear in an adapter `Row`, restricted to the
shapes the builder distinguishes: a numeric scalar (all of `float64`,
`float32`, `int`, `int64`, `int32` coerce and are collapsed into one
constructor), a string, or anything else. -/
inductive GoVal where
  | num (q : ℚ)
  | str (s : String)
  | other
  deriving DecidableEq, Repr

/-- Source `features.toFloat64`: numeric scalars coerce; strings and anything else
do not. -/
def toFloat64 (v : GoVal) : Option ℚ :=
  match v with
  | .num q => some q
  | _ => none

/-- One row of an `adapters.DataFrame` (`map[string]any`), restricted to the
keys the builder reads: `value` and `ts`. -/
structure DRow where
  value : Option GoVal := none
  ts : Option GoVal := none
  deriving DecidableEq, Repr

/-- Source `adapters.DataFrame`. -/
structure DataFrame where
  Rows : List DRow
  deriving DecidableEq, Repr

/-- The components `BuildFeatures` extracts from a parsed timestamp:
epoch seconds, hour of day, weekday. -/
structure TimeParts where
  unix : ℤ
  hour : ℤ
  day : ℤ
  deriving DecidableEq, Repr

/-- Source `features.Builder.BuildFeatures`, parameterised by the timestamp parser
(`features.parseTimestamp`, whose RFC3339 string parsing is not modelled;
every claim settled here is independent of the parser). -/
def BuildFeatures (parseTs : GoVal → Option TimeParts) (df : DataFrame) :
    Except String FeatureFrame :=
  if df.Rows = [] then .error "dataframe is empty"
  else
    let rows := df.Rows.filterMap (fun r =>
      match r.value with
      | none => none
      | some raw =>
        match toFloat64 raw with
        | none => none
        | some v =>
          match r.ts.bind parseTs with
          | some tp =>
            some { value := some v, hour := some (tp.hour : ℚ),
                   timestamp := some (tp.unix : ℚ), day := some (tp.day : ℚ) }
          | none => some { value := some v })
    if rows = [] then .error "no valid rows with value field"
    else .ok ⟨rows⟩

/-! ## Adapter aggregation — `pkg/adapters/prometheus.go` -/

/-- The effect of `acc[tsSec] += val` on a Go map modelled as an association
list with unique keys: update in place if the key exists, else append. -/
def addPair (acc : List (ℤ × ℚ)) (p : ℤ × ℚ) : List (ℤ × ℚ) :=
  match acc with
  | [] => [p]
  | q :: rest => if q.1 = p.1 then (q.1, q.2 + p.2) :: rest else q :: addPair rest p

/-- Source `adapters.aggregateRangeResult` on already-decoded series: sum the values
of all series per timestamp.  Each serie is its list of `(tsSec, value)`
pairs after the type switches of the source (which only normalise JSON
number/string encodings). -/
def aggregateRangeResult (series : List (List (ℤ × ℚ))) : List (ℤ × ℚ) :=
  series.foldl (fun acc s => s.foldl addPair acc) []

/-- The tail of `PrometheusAdapter.Collect` after decoding: aggregate, then
sort rows ascending by timestamp (`sort.Slice`; timestamps are unique map
keys, so the sort result is unique).  The final RFC3339 formatting of `ts`
is injective and monotone on epoch seconds and is not modelled. -/
def collectRows (series : List (List (ℤ × ℚ))) : List (ℤ × ℚ) :=
  (aggregateRangeResult series).insertionSort (fun a b => a.1 ≤ b.1)

/-- Specification observer for the adapter: the sum of the values carried
at timestamp `t` by a list of `(ts, value)` pairs. -/
def keySum (l : List (ℤ × ℚ)) (t : ℤ) : ℚ :=
  ((l.filter (fun q => q.1 = t)).map Prod.snd).sum

instance : IsTotal (ℤ × ℚ) (fun a b => a.1 ≤ b.1) :=
  ⟨fun a b => le_total a.1 b.1⟩

instance : IsTrans (ℤ × ℚ) (fun a b => a.1 ≤ b.1) :=
  ⟨fun _ _ _ h1 h2 => le_trans h1 h2⟩

/-! ## Snapshot store and forecaster loop — `pkg/storage`, `cmd/forecaster` -/

/-- Source `storage.Snapshot`.  `GeneratedAt` is an abstract instant (`ℤ`). -/
structure Snapshot where
  Workload : String
  Metric : String
  GeneratedAt : ℤ
  StepSeconds : ℤ
  HorizonSeconds : ℤ
  Values : List ℚ
  DesiredReplicas : List ℤ
  deriving DecidableEq, Repr

/-- The mutable state of `Forecaster` relevant to the loop: configuration
plus `currentReplicas`.  `horizon` and `step` are already in seconds
(`int(d.Seconds())` in the source). -/
structure Forecaster where
  workload : String
  policy : Policy
  horizon : ℤ
  step : ℤ
  currentReplicas : ℤ
  deriving DecidableEq, Repr

/-- Source `forecaster.New`: `currentReplicas` starts at `policy.MinReplicas`. -/
def Forecaster.New (workload : String) (policy : Policy) (horizon step : ℤ) :
    Forecaster :=
  ⟨workload, policy, horizon, step, policy.MinReplicas⟩

/-- The collaborators of one `Forecaster.Tick`, as the interfaces the loop
calls out to: the adapter result, the model predictor, the store writer
(all may fail), the builder timestamp parser, and the wall clock instant. -/
structure TickEnv where
  collect : Except String DataFrame
  predict : FeatureFrame → Except String Forecast
  put : Snapshot → Except String Unit
  parseTs : GoVal → Option TimeParts
  now : ℤ

/-- Source `Forecaster.calculateReplicas`: run the planner, then update
`currentReplicas` to `desired[0]` when the plan is non-empty. -/
def calculateReplicas (f : Forecaster) (values : List ℚ) : List ℤ × Forecaster :=
  let desired := ToReplicas f.currentReplicas values f.step f.policy
  match desired with
  | [] => (desired, f)
  | d :: _ => (desired, { f with currentReplicas := d })

/-- Source `Forecaster.storeSnapshot`. -/
def storeSnapshot (env : TickEnv) (f : Forecaster) (fc : Forecast)
    (desired : List ℤ) : Except String Unit :=
  env.put ⟨f.workload, fc.Metric, env.now, f.step, f.horizon, fc.Values, desired⟩

/-- Source `Forecaster.Tick`: collect → build features → predict → plan → store,
returning the error (if any) and the state after the tick.  Note that
`calculateReplicas` mutates `currentReplicas` before `storeSnapshot` runs. -/
def tick (env : TickEnv) (f : Forecaster) : Except String Unit × Forecaster :=
  match env.collect with
  | .error e => (.error ("collect: " ++ e), f)
  | .ok df =>
    match BuildFeatures env.parseTs df with
    | .error e => (.error ("build features: " ++ e), f)
    | .ok ff =>
      match env.predict ff with
      | .error e => (.error ("predict: " ++ e), f)
      | .ok fc =>
        let r := calculateReplicas f fc.Values
        match storeSnapshot env r.2 fc r.1 with
        | .error e => (.error ("store: " ++ e), r.2)
        | .ok _ => (.ok (), r.2)

/-! ## Snapshot HTTP endpoint — `cmd/forecaster/server` -/

/-- The observable outcome of `handleGetSnapshot` on one request: HTTP
status, the error body (`{"error": <msg>}`, modelled by its message;
`none` for the 200 JSON body), and whether `X-Kedastral-Stale: true` was
set. -/
structure HandlerResult where
  status : ℕ
  errorBody : Option String
  stale : Bool
  deriving DecidableEq, Repr

/-- Source `server.handleGetSnapshot` for `GET /forecast/current?workload=<w>`.
`workload` is the query parameter (`""` when missing), `getLatest` the
store result (`(Snapshot, found, error)` as `Except _ (Option _)`), `now`
the request instant and `staleAfter` the threshold, in the same time unit
as `Snapshot.GeneratedAt`.  The error bodies come from
`httpx.WriteErrorMessage`, which is exercised by its tests but absent from
the sources; modelled from the spec: it writes the status code and the
JSON body `{"error": <message>}`.  Go quoting `%q` of the workload is
modelled as plain quote wrapping (exact for names without escapes). -/
def handleGetSnapshot (workload : String) (getLatest : Except String (Option Snapshot))
    (now staleAfter : ℤ) : HandlerResult :=
  if workload = "" then ⟨400, some "workload parameter required", false⟩
  else
    match getLatest with
    | .error _ => ⟨500, some "internal server error", false⟩
    | .ok none =>
      ⟨404, some ("snapshot not found for workload \"" ++ workload ++ "\""), false⟩
    | .ok (some snap) =>
      ⟨200, none, if staleAfter < now - snap.GeneratedAt then true else false⟩

/-! ## Helper lemmas -/

theorem ratFloor_eq (q : ℚ) : ratFloor q = ⌊q⌋ := Rat.floor_def.symm

theorem ratCeil_eq (q : ℚ) : ratCeil q = ⌈q⌉ := by
  rw [ratCeil, ratFloor_eq, Int.floor_neg, neg_neg]

theorem clampBounds_mem (x lo hi : ℤ) (h : 0 < hi → lo ≤ hi) :
    lo ≤ clampBounds x lo hi ∧ (0 < hi → clampBounds x lo hi ≤ hi) := by
  unfold clampBounds
  split_ifs <;> omega

theorem sanitize_min_nonneg (p : Policy) : 0 ≤ (sanitizePolicy p).MinReplicas := by
  simp only [sanitizePolicy]
  split_ifs <;> omega

theorem sanitize_min_le_max (p : Policy) :
    0 < (sanitizePolicy p).MaxReplicas →
    (sanitizePolicy p).MinReplicas ≤ (sanitizePolicy p).MaxReplicas := by
  simp only [sanitizePolicy]
  split_ifs <;> omega

theorem sanitize_up_pos (p : Policy) : 0 < (sanitizePolicy p).UpMaxFactorPerStep := by
  simp only [sanitizePolicy]
  split_ifs with h
  · norm_num
  · linarith [not_le.mp h]

theorem sanitize_down_nonneg (p : Policy) :
    0 ≤ (sanitizePolicy p).DownMaxPercentPerStep := by
  simp only [sanitizePolicy]
  split_ifs <;> omega

theorem planStep_eq (p : Policy) (adj : List ℚ) (i0 pw i : ℕ) (prevOut : ℤ) :
    planStep p adj i0 pw i prevOut =
      clampBounds
        (clampChange prevOut
          (clampBounds (roundPods (needAt adj i0 pw i) p.RoundingMode)
            p.MinReplicas p.MaxReplicas)
          p.UpMaxFactorPerStep p.DownMaxPercentPerStep)
        p.MinReplicas p.MaxReplicas := rfl

theorem planLoop_mem (p : Policy) (adj : List ℚ) (i0 pw : ℕ)
    (h : 0 < p.MaxReplicas → p.MinReplicas ≤ p.MaxReplicas) :
    ∀ (count i : ℕ) (prevOut r : ℤ), r ∈ planLoop p adj i0 pw count i prevOut →
      p.MinReplicas ≤ r ∧ (0 < p.MaxReplicas → r ≤ p.MaxReplicas) := by
  intro count
  induction count with
  | zero => intro i prevOut r hr; simp [planLoop] at hr
  | succ n ih =>
    intro i prevOut r hr
    simp only [planLoop, List.mem_cons] at hr
    rcases hr with hr | hr
    · subst hr; rw [planStep_eq]; exact clampBounds_mem _ _ _ h
    · exact ih _ _ _ hr

/-! ## Claim theorems -/

theorem toReplicas_mem_bounds (prev : ℤ) (forecast : List ℚ) (stepSec : ℤ)
    (p : Policy) (r : ℤ) (hr : r ∈ ToReplicas prev forecast stepSec p) :
    (sanitizePolicy p).MinReplicas ≤ r ∧
    (0 < (sanitizePolicy p).MaxReplicas → r ≤ (sanitizePolicy p).MaxReplicas) := by
  unfold ToReplicas at hr
  split_ifs at hr with hemp
  · simp at hr
  · exact planLoop_mem _ _ _ _ (sanitize_min_le_max p) _ _ _ _ hr

/-- C1: every element of the list returned by `ToReplicas` lies between the
sanitised `MinReplicas` and, when the sanitised `MaxReplicas` is positive,
`MaxReplicas` (`MaxReplicas = 0` meaning no upper bound), for every `prev`,
forecast, `stepSec` and policy. -/
theorem toReplicas_bounds (prev : ℤ) (forecast : List ℚ) (stepSec : ℤ)
    (p : Policy) (r : ℤ) (hr : r ∈ ToReplicas prev forecast stepSec p) :
    (sanitizePolicy p).MinReplicas ≤ r ∧
    (0 < (sanitizePolicy p).MaxReplicas → r ≤ (sanitizePolicy p).MaxReplicas) :=
  toReplicas_mem_bounds prev forecast stepSec p r hr

/-- Witness for C1 at the S1 scenario: the element `4` of the output. -/
theorem toReplicas_bounds_witness :
    (sanitizePolicy ⟨50, 12/10, 60, 1, 100, 2, 50, 0, "ceil"⟩).MinReplicas ≤ 4 ∧
    (0 < (sanitizePolicy ⟨50, 12/10, 60, 1, 100, 2, 50, 0, "ceil"⟩).MaxReplicas →
      4 ≤ (sanitizePolicy ⟨50, 12/10, 60, 1, 100, 2, 50, 0, "ceil"⟩).MaxReplicas) :=
  toReplicas_bounds 2 [120, 130, 125, 140, 100] 60 _ 4 (by with_unfolding_all decide)

theorem clampChange_between (a d2 : ℤ) (up : ℚ) (down : ℤ)
    (ha : 0 < a) (hup : 1 ≤ up) (hdown : 0 ≤ down) :
    ratFloor ((a : ℚ) * (1 - (down : ℚ) / 100)) ≤ clampChange a d2 up down ∧
      clampChange a d2 up down ≤ ratCeil ((a : ℚ) * up) ∧
      ratFloor ((a : ℚ) * (1 - (down : ℚ) / 100)) ≤ a ∧
      a ≤ ratCeil ((a : ℚ) * up) := by
  have haq : (0 : ℚ) ≤ (a : ℚ) := by exact_mod_cast ha.le
  have hfloor : ratFloor ((a : ℚ) * (1 - (down : ℚ) / 100)) ≤ a := by
    rw [ratFloor_eq]
    have hdq : (0 : ℚ) ≤ (down : ℚ) := by exact_mod_cast hdown
    calc ⌊(a : ℚ) * (1 - (down : ℚ) / 100)⌋ ≤ ⌊(a : ℚ)⌋ := by
          apply Int.floor_le_floor
          nlinarith [mul_nonneg haq hdq]
      _ = a := Int.floor_intCast a
  have hceil : a ≤ ratCeil ((a : ℚ) * up) := by
    rw [ratCeil_eq]
    calc a = ⌈(a : ℚ)⌉ := (Int.ceil_intCast a).symm
      _ ≤ ⌈(a : ℚ) * up⌉ := by
          apply Int.ceil_le_ceil
          nlinarith [haq, hup]
  refine ⟨?_, ?_, hfloor, hceil⟩ <;>
  · unfold clampChange
    have h1 : ¬a < 0 := by omega
    have h2 : a ≠ 0 := by omega
    simp only [h1, if_false, h2, if_neg]
    split_ifs <;> omega

theorem clampBounds_chain (c lo hi a minDown maxUp : ℤ)
    (hlo_a : lo ≤ a) (hhi_a : 0 < hi → a ≤ hi)
    (hminc : minDown ≤ c) (hcmax : c ≤ maxUp)
    (hminA : minDown ≤ a) (hamax : a ≤ maxUp) :
    minDown ≤ clampBounds c lo hi ∧ clampBounds c lo hi ≤ maxUp := by
  unfold clampBounds
  split_ifs with h1 h2
  · have := hhi_a h1.1; omega
  · omega
  · omega

theorem planLoop_get_succ (p : Policy) (adj : List ℚ) (i0 pw : ℕ) :
    ∀ (count i : ℕ) (prevOut : ℤ) (j : ℕ) (a b : ℤ),
      (planLoop p adj i0 pw count i prevOut)[j]? = some a →
      (planLoop p adj i0 pw count i prevOut)[j + 1]? = some b →
      b = planStep p adj i0 pw (i + j + 1) a := by
  intro count
  induction count with
  | zero => intro i prevOut j a b ha hb; simp [planLoop] at ha
  | succ n ih =>
    intro i prevOut j a b ha hb
    match j with
    | 0 =>
      simp only [planLoop, List.getElem?_cons_zero, Option.some_inj] at ha
      simp only [planLoop, List.getElem?_cons_succ] at hb
      cases n with
      | zero => simp [planLoop] at hb
      | succ m =>
        simp only [planLoop, List.getElem?_cons_zero, Option.some_inj] at hb
        subst ha
        simpa using hb.symm
    | Nat.succ k =>
      simp only [planLoop, List.getElem?_cons_succ] at ha hb
      have := ih (i + 1) (planStep p adj i0 pw i prevOut) k a b ha hb
      rw [this]
      congr 1
      omega

/-- C2 (amended): for every input to `ToReplicas` whose *sanitised* up
factor is at least 1, every pair of consecutive output elements
`(a, b) = (r_[i], r_[i+1])` with `a > 0` satisfies
`b ≤ ⌈a · upMaxFactorPerStep⌉` and `b ≥ ⌊a · (1 − downMaxPercentPerStep/100)⌋`.
(The claim as frozen — without the `1 ≤ upMaxFactorPerStep` hypothesis —
is refuted by `toReplicas_change_clamp_cex`: with an up factor below 1 the
re-applied lower bound can exceed the up-clamp.) -/
theorem toReplicas_change_clamp (prev : ℤ) (forecast : List ℚ) (stepSec : ℤ)
    (p : Policy) (i : ℕ) (a b : ℤ)
    (hup : 1 ≤ (sanitizePolicy p).UpMaxFactorPerStep)
    (ha : (ToReplicas prev forecast stepSec p)[i]? = some a)
    (hb : (ToReplicas prev forecast stepSec p)[i + 1]? = some b)
    (hpos : 0 < a) :
    b ≤ ⌈(a : ℚ) * (sanitizePolicy p).UpMaxFactorPerStep⌉ ∧
    ⌊(a : ℚ) * (1 - ((sanitizePolicy p).DownMaxPercentPerStep : ℚ) / 100)⌋ ≤ b := by
  have hmem : a ∈ ToReplicas prev forecast stepSec p := by
    exact List.getElem?_mem ha
  have haB := toReplicas_mem_bounds prev forecast stepSec p a hmem
  unfold ToReplicas at ha hb
  split_ifs at ha with hemp
  · simp at ha
  · rw [if_neg hemp] at hb
    have hstep := planLoop_get_succ _ _ _ _ _ _ _ _ _ _ ha hb
    rw [hstep, planStep_eq]
    have hcc := clampChange_between a
      (clampBounds
        (roundPods
          (needAt
            (forecast.map (fun v =>
              (if v < 0 then 0 else v) / (sanitizePolicy p).TargetPerPod *
                (sanitizePolicy p).Headroom))
            ((if ratCeil (((sanitizePolicy p).LeadTimeSeconds : ℚ) /
                  ((sanitizeStep stepSec) : ℚ)) < 0 then 0
              else ratCeil (((sanitizePolicy p).LeadTimeSeconds : ℚ) /
                  ((sanitizeStep stepSec) : ℚ))).toNat)
            (sanitizePolicy p).PrewarmWindowSteps.toNat (0 + i + 1))
          (sanitizePolicy p).RoundingMode)
        (sanitizePolicy p).MinReplicas (sanitizePolicy p).MaxReplicas)
      (sanitizePolicy p).UpMaxFactorPerStep (sanitizePolicy p).DownMaxPercentPerStep
      hpos hup (sanitize_down_nonneg p)
    have hchain := clampBounds_chain _ _ _ a _ _ haB.1 haB.2
      hcc.1 hcc.2.1 hcc.2.2.1 hcc.2.2.2
    rw [← ratCeil_eq, ← ratFloor_eq]
    exact ⟨hchain.2, hchain.1⟩

/-- Counterexample for C2 as frozen: with sanitised up factor `1/2`, min
replicas 10 and no upper bound, the outputs are `[10, 10]`, yet
`10 ≤ ⌈10 · (1/2)⌉ = 5` fails for the consecutive pair `(10, 10)`. -/
theorem toReplicas_change_clamp_cex :
    (ToReplicas 10 [0, 0] 60 ⟨1, 1, 0, 10, 0, 1/2, 0, 0, "ceil"⟩)[0]? = some 10 ∧
    (ToReplicas 10 [0, 0] 60 ⟨1, 1, 0, 10, 0, 1/2, 0, 0, "ceil"⟩)[1]? = some 10 ∧
    (sanitizePolicy ⟨1, 1, 0, 10, 0, 1/2, 0, 0, "ceil"⟩).UpMaxFactorPerStep = 1/2 ∧
    ¬((10 : ℤ) ≤ ⌈(10 : ℚ) * (1/2)⌉) := by
  refine ⟨by with_unfolding_all decide, by with_unfolding_all decide,
    by with_unfolding_all decide, ?_⟩
  rw [← ratCeil_eq]
  with_unfolding_all decide

/-- Witness for the amended C2 at the S1 scenario, consecutive pair
`(4, 3)` at indices 0 and 1. -/
theorem toReplicas_change_clamp_witness :
    (3 : ℤ) ≤ ⌈(4 : ℚ) *
        (sanitizePolicy ⟨50, 12/10, 60, 1, 100, 2, 50, 0, "ceil"⟩).UpMaxFactorPerStep⌉ ∧
    ⌊(4 : ℚ) * (1 -
        ((sanitizePolicy ⟨50, 12/10, 60, 1, 100, 2, 50, 0, "ceil"⟩).DownMaxPercentPerStep : ℚ)
          / 100)⌋ ≤ 3 :=
  toReplicas_change_clamp 2 [120, 130, 125, 140, 100] 60 _ 0 4 3
    (by with_unfolding_all decide) (by with_unfolding_all decide)
    (by with_unfolding_all decide) (by with_unfolding_all decide)

/-- C3: the S1 scenario — `ToReplicas(2, [120,130,125,140,100], 60, policy)`
returns exactly `[4, 3, 4, 3, 3]`. -/
theorem toReplicas_s1 :
    ToReplicas 2 [120, 130, 125, 140, 100] 60
      ⟨50, 12/10, 60, 1, 100, 2, 50, 0, "ceil"⟩ = [4, 3, 4, 3, 3] := by
  with_unfolding_all decide

/-- C4 (amended): the change clamp at step 0 is applied against a previous
output seeded from `clampBounds(prev, minReplicas, maxReplicas)` — not from
`prev` itself — so for every non-empty forecast and policy, if `prev = 0`
*and the sanitised `minReplicas` is 0* (so that the seeded previous output
is really 0), the step-0 result equals the rounded, bounds-clamped demand
capped by `⌈1 · upMaxFactorPerStep⌉` (cold-start branch), re-clamped to
`[minReplicas, maxReplicas]`.  (As frozen — for `prev = 0` with any
`minReplicas` — the claim is refuted by `coldStart_head_cex`.) -/
theorem coldStart_head (forecast : List ℚ) (stepSec : ℤ) (p : Policy)
    (hne : forecast ≠ []) (hmin : (sanitizePolicy p).MinReplicas = 0) :
    (ToReplicas 0 forecast stepSec p).head? =
      some (claimedColdStart forecast stepSec p) := by
  obtain ⟨f0, fs, rfl⟩ := List.exists_cons_of_ne_nil hne
  unfold ToReplicas claimedColdStart
  rw [if_neg hne]
  have hprev : clampBounds 0 (sanitizePolicy p).MinReplicas
      (sanitizePolicy p).MaxReplicas = 0 := by
    unfold clampBounds; rw [hmin]; split_ifs <;> omega
  simp only [List.length_cons, planLoop, List.head?_cons, hprev, planStep_eq,
    Option.some_inj]
  congr 1
  unfold clampChange
  have hup := sanitize_up_pos p
  norm_num [hup]

/-- Counterexample for C4 as frozen: `prev = 0` with `minReplicas = 3`
(and no upper bound, up factor 2).  The code seeds the change clamp with
`clampBounds(0, 3, 0) = 3`, giving step-0 output `6`, while the claimed
cold-start formula gives `3`. -/
theorem coldStart_head_cex :
    ToReplicas 0 [100] 60 ⟨1, 1, 0, 3, 0, 2, 0, 0, "ceil"⟩ = [6] ∧
    claimedColdStart [100] 60 ⟨1, 1, 0, 3, 0, 2, 0, 0, "ceil"⟩ = 3 ∧
    (6 : ℤ) ≠ 3 :=
  ⟨by with_unfolding_all decide, by with_unfolding_all decide, by decide⟩

/-- Witness for the amended C4: `prev = 0`, `minReplicas = 0`, forecast
`[100]`. -/
theorem coldStart_head_witness :
    (ToReplicas 0 [100] 60 ⟨1, 1, 0, 0, 0, 2, 0, 0, "ceil"⟩).head? =
      some (claimedColdStart [100] 60 ⟨1, 1, 0, 0, 0, 2, 0, 0, "ceil"⟩) :=
  coldStart_head [100] 60 _ (by simp) (by with_unfolding_all decide)

theorem getLastD_of_ne_nil {l : List ℚ} (hl : l ≠ []) (d1 d2 : ℚ) :
    l.getLastD d1 = l.getLastD d2 := by
  rw [List.getLastD_eq_getLast?, List.getLastD_eq_getLast?]
  cases hx : l.getLast? with
  | none => exact absurd (List.getLast?_eq_none_iff.mp hx) hl
  | some x => rfl

theorem getLast?_drop_of_ne_nil :
    ∀ (k : ℕ) (l : List ℚ), l.drop k ≠ [] → (l.drop k).getLast? = l.getLast? := by
  intro k
  induction k with
  | zero => intro l _; rfl
  | succ n ih =>
    intro l h
    cases l with
    | nil => simp at h
    | cons x t =>
      rw [List.drop_succ_cons] at h ⊢
      rw [ih t h]
      have ht : t ≠ [] := by
        intro he; rw [he, List.drop_nil] at h; exact h rfl
      cases t with
      | nil => exact absurd rfl ht
      | cons y t2 => rw [List.getLast?_cons_cons]

theorem chainLe_drop (l : List ℚ) (k : ℕ) (h : List.Chain' (· ≤ ·) l) :
    List.Chain' (· ≤ ·) (l.drop k) := by
  have : IsTrans ℚ (· ≤ ·) := ⟨fun _ _ _ => le_trans⟩
  rw [List.chain'_iff_pairwise] at h ⊢
  exact h.sublist (List.drop_sublist k l)

theorem emaFold_le (alpha : ℚ) (_h0 : 0 ≤ alpha) (h1 : alpha ≤ 1) :
    ∀ (t : List ℚ) (a b : ℚ), a ≤ b → List.Chain (· ≤ ·) b t →
      emaFold alpha a t ≤ (b :: t).getLastD 0 := by
  intro t
  induction t with
  | nil => intro a b hab _; simpa [emaFold] using hab
  | cons c t2 ih =>
    intro a b hab hchain
    rcases hchain with _ | ⟨hbc, hct⟩
    have hac : alpha * c + (1 - alpha) * a ≤ c := by nlinarith
    have := ih (alpha * c + (1 - alpha) * a) c hac hct
    calc emaFold alpha a (c :: t2) = emaFold alpha (alpha * c + (1 - alpha) * a) t2 := rfl
      _ ≤ (c :: t2).getLastD 0 := this
      _ = (b :: c :: t2).getLastD 0 := by
          rw [List.getLastD_eq_getLast?, List.getLastD_eq_getLast?,
            List.getLast?_cons_cons]

theorem computeEMA_le_getLastD (v : List ℚ) (n : ℕ) (hn : 1 ≤ n) (hv : v ≠ [])
    (hmono : List.Chain' (· ≤ ·) v) : computeEMA v n ≤ v.getLastD 0 := by
  have hlenpos : 0 < v.length := List.length_pos.mpr hv
  have hstart : (if n < v.length then v.length - n else 0) < v.length := by
    split_ifs <;> omega
  have hdrop : v.drop (if n < v.length then v.length - n else 0) ≠ [] := by
    intro he
    have := List.drop_eq_nil_iff.mp he
    omega
  cases hw : v.drop (if n < v.length then v.length - n else 0) with
  | nil => exact absurd hw hdrop
  | cons h t =>
    have hchain : List.Chain' (· ≤ ·) (h :: t) := by
      rw [← hw]; exact chainLe_drop _ _ hmono
    have halpha0 : (0 : ℚ) ≤ 2 / ((t.length : ℚ) + 2) := by positivity
    have halpha1 : 2 / ((t.length : ℚ) + 2) ≤ 1 := by
      rw [div_le_one (by positivity)]
      have : (0 : ℚ) ≤ (t.length : ℚ) := by positivity
      linarith
    have hbound := emaFold_le _ halpha0 halpha1 t h h (le_refl h) hchain
    have hev : computeEMA v n = emaFold (2 / ((t.length : ℚ) + 2)) h t := by
      simp only [computeEMA]
      rw [hw]
    rw [hev]
    calc emaFold (2 / ((t.length : ℚ) + 2)) h t ≤ (h :: t).getLastD 0 := hbound
      _ = v.getLastD 0 := by
          rw [List.getLastD_eq_getLast?, List.getLastD_eq_getLast?, ← hw,
            getLast?_drop_of_ne_nil _ _ hdrop]

/-- C5 (amended): for a `BaselineModel` with an *empty* (untrained)
seasonality table and every feature frame whose ordered `value` series is
monotonically non-decreasing with length ≥ 2 and *non-negative last value*
`last`, every value `q` returned by `Predict` satisfies
`last ≤ q ≤ 1.5 · last`.  (As frozen — over arbitrary trained seasonality
tables and arbitrary non-decreasing series — the claim is refuted by
`baseline_band_cex`: a seasonal blend or a negative last value escapes the
band.) -/
theorem baseline_band (m : BaselineModel) (frame : FeatureFrame)
    (hseas : m.seasonality = [])
    (hlen : 2 ≤ (frame.Rows.filterMap (fun r => r.value)).length)
    (hmono : List.Chain' (· ≤ ·) (frame.Rows.filterMap (fun r => r.value)))
    (hlast : 0 ≤ (frame.Rows.filterMap (fun r => r.value)).getLastD 0) :
    ∃ fc, Predict m frame = .ok fc ∧ ∀ q ∈ fc.Values,
      (frame.Rows.filterMap (fun r => r.value)).getLastD 0 ≤ q ∧
      q ≤ 3/2 * (frame.Rows.filterMap (fun r => r.value)).getLastD 0 := by
  set v := frame.Rows.filterMap (fun r => r.value) with hv
  have hvne : v ≠ [] := by
    intro he; rw [he] at hlen; simp at hlen
  have hrne : ¬(frame.Rows = []) := by
    intro he
    apply hvne
    rw [hv, he, List.filterMap_nil]
  have hbase0 : 7/10 * computeEMA v 5 + 3/10 * computeEMA v 30 ≤ v.getLastD 0 := by
    have h5 := computeEMA_le_getLastD v 5 (by omega) hvne hmono
    have h30 := computeEMA_le_getLastD v 30 (by omega) hvne hmono
    linarith
  have hbase1 :
      (if 2 ≤ v.length ∧ 7/10 * computeEMA v 5 + 3/10 * computeEMA v 30 < v.getLastD 0
        then v.getLastD 0
        else 7/10 * computeEMA v 5 + 3/10 * computeEMA v 30) = v.getLastD 0 := by
    split_ifs with h
    · rfl
    · push_neg at h
      exact le_antisymm hbase0 (h hlen)
  simp only [Predict, if_neg hrne, ← hv, if_neg hvne, hbase1, hseas,
    List.length_nil, lt_irrefl, and_false, if_false, if_neg (not_lt.mpr hlast)]
  refine ⟨_, rfl, ?_⟩
  intro q hq
  simp only [List.mem_map] at hq
  obtain ⟨i, _, rfl⟩ := hq
  constructor
  · exact le_refl _
  · linarith

/-- Counterexample for C5 as frozen.  First conjunct: a model trained on a
history with hour-0 mean 1000 (a legitimately trained seasonality table)
and the non-decreasing series `[10, 10]` yields the prediction `208`,
outside `[10, 15]`.  Second conjunct: with no seasonality at all, the
non-decreasing series `[-4, -2]` yields `0`, violating `q ≤ 1.5 · (−2)`. -/
theorem baseline_band_cex :
    (Predict
        (Train (NewBaselineModel "m" 60 60)
          ⟨[{ value := some 1000, hour := some 0 },
            { value := some 1000, hour := some 0 }]⟩)
        ⟨[{ value := some 10, hour := some 0 }, { value := some 10, hour := some 0 }]⟩ =
      .ok ⟨"m", [208], 60, 60⟩ ∧ ¬((208 : ℚ) ≤ 3/2 * 10)) ∧
    (Predict (NewBaselineModel "m" 60 60)
        ⟨[{ value := some (-4) }, { value := some (-2) }]⟩ =
      .ok ⟨"m", [0], 60, 60⟩ ∧ ¬((0 : ℚ) ≤ 3/2 * (-2))) := by
  refine ⟨⟨?_, ?_⟩, ?_, ?_⟩ <;> with_unfolding_all decide

/-- Witness for the amended C5: untrained model, series `[1, 2]`. -/
theorem baseline_band_witness :
    ∃ fc, Predict (NewBaselineModel "m" 60 60) ⟨[{ value := some 1 }, { value := some 2 }]⟩ =
        .ok fc ∧ ∀ q ∈ fc.Values,
      (([{ value := some 1 }, { value := some 2 }] :
          List FeatureRow).filterMap (fun r => r.value)).getLastD 0 ≤ q ∧
      q ≤ 3/2 * (([{ value := some 1 }, { value := some 2 }] :
          List FeatureRow).filterMap (fun r => r.value)).getLastD 0 :=
  baseline_band (NewBaselineModel "m" 60 60) ⟨[{ value := some 1 }, { value := some 2 }]⟩
    (by with_unfolding_all decide) (by with_unfolding_all decide)
    (by
      show List.Chain' (· ≤ ·) [(1 : ℚ), 2]
      exact List.chain'_pair.mpr (by norm_num))
    (by with_unfolding_all decide)

/-- C6 (amended): for every `BaselineModel` with positive `stepSec` and
every feature frame containing at least one `value`, `Predict` succeeds and
returns exactly `max(1, horizon / stepSec)` values (Go truncated integer
division), each of them `≥ 0` (finiteness is inherent to the exact-rational
embedding).  (As frozen — length exactly `horizonSec / stepSec` — the claim
is refuted by `baseline_output_shape_cex`: when `horizon < stepSec` the
integer quotient is 0 but one value is returned; `stepSec = 0` would panic
in Go.) -/
theorem baseline_output_shape (m : BaselineModel) (frame : FeatureFrame)
    (_hstep : 0 < m.stepSec)
    (hval : frame.Rows.filterMap (fun r => r.value) ≠ []) :
    ∃ fc, Predict m frame = .ok fc ∧
      fc.Values.length = (max 1 (Int.tdiv m.horizon m.stepSec)).toNat ∧
      ∀ q ∈ fc.Values, 0 ≤ q := by
  have hrne : ¬(frame.Rows = []) := by
    intro he
    apply hval
    rw [he, List.filterMap_nil]
  simp only [Predict, if_neg hrne, if_neg hval]
  refine ⟨_, rfl, ?_, ?_⟩
  · have heq : (if Int.tdiv m.horizon m.stepSec ≤ 0 then 1 else Int.tdiv m.horizon m.stepSec)
        = max 1 (Int.tdiv m.horizon m.stepSec) := by
      split_ifs <;> omega
    have hlenmr : ∀ (f : ℕ → ℚ) (k : ℕ), (List.map f (List.range k)).length = k := by
      intro f k
      rw [List.length_map, List.length_range]
    exact (hlenmr _ _).trans (congrArg Int.toNat heq)
  · intro q hq
    simp only [List.mem_map] at hq
    obtain ⟨i, _, rfl⟩ := hq
    have hnn : ∀ x : ℚ, (0 : ℚ) ≤ if x < 0 then 0 else x := by
      intro x
      split_ifs with h
      · exact le_refl 0
      · exact not_lt.mp h
    exact hnn _

/-- Counterexample for C6 as frozen: `horizon = 30`, `stepSec = 60`: the
integer quotient `horizon / stepSec` is 0, yet `Predict` returns one
value. -/
theorem baseline_output_shape_cex :
    (Predict (NewBaselineModel "m" 60 30) ⟨[{ value := some 5 }]⟩).map
        (fun fc => fc.Values.length) = .ok 1 ∧
    (1 : ℕ) ≠ (Int.tdiv 30 60).toNat :=
  ⟨by with_unfolding_all decide, by decide⟩

/-- Witness for the amended C6: `horizon = 1800`, `stepSec = 60`, one
value row; 30 values are returned. -/
theorem baseline_output_shape_witness :
    ∃ fc, Predict (NewBaselineModel "m" 60 1800) ⟨[{ value := some 5 }]⟩ = .ok fc ∧
      fc.Values.length = (max 1 (Int.tdiv 1800 60)).toNat ∧
      ∀ q ∈ fc.Values, 0 ≤ q :=
  baseline_output_shape _ _ (by decide) (by with_unfolding_all decide)

theorem keySum_cons (q : ℤ × ℚ) (l : List (ℤ × ℚ)) (t : ℤ) :
    keySum (q :: l) t = (if q.1 = t then q.2 else 0) + keySum l t := by
  simp only [keySum, List.filter_cons]
  by_cases h : q.1 = t
  · simp [h]
  · simp [h]

theorem keySum_nil (t : ℤ) : keySum [] t = 0 := rfl

theorem keySum_append (l1 l2 : List (ℤ × ℚ)) (t : ℤ) :
    keySum (l1 ++ l2) t = keySum l1 t + keySum l2 t := by
  simp [keySum, List.filter_append]

theorem keySum_eq_zero_of_not_mem (l : List (ℤ × ℚ)) (t : ℤ)
    (h : t ∉ l.map Prod.fst) : keySum l t = 0 := by
  induction l with
  | nil => rfl
  | cons q rest ih =>
    simp only [List.map_cons, List.mem_cons, not_or] at h
    rw [keySum_cons, if_neg (fun he => h.1 he.symm), ih h.2, add_zero]

theorem keySum_of_mem (l : List (ℤ × ℚ)) (hnd : (l.map Prod.fst).Nodup)
    (t : ℤ) (v : ℚ) (h : (t, v) ∈ l) : keySum l t = v := by
  induction l with
  | nil => simp at h
  | cons q rest ih =>
    simp only [List.map_cons, List.nodup_cons] at hnd
    rcases List.mem_cons.mp h with he | hm
    · rw [← he, keySum_cons, if_pos rfl,
        keySum_eq_zero_of_not_mem rest t (by rw [← he] at hnd; exact hnd.1), add_zero]
    · have hq : q.1 ≠ t := by
        intro he
        apply hnd.1
        rw [he]
        exact List.mem_map.mpr ⟨(t, v), hm, rfl⟩
      rw [keySum_cons, if_neg hq, ih hnd.2 hm, zero_add]

theorem addPair_keySum (acc : List (ℤ × ℚ)) (p : ℤ × ℚ) (t : ℤ) :
    keySum (addPair acc p) t = keySum acc t + (if p.1 = t then p.2 else 0) := by
  induction acc with
  | nil =>
    simp only [addPair, keySum_cons, keySum_nil]
    split_ifs <;> simp
  | cons q rest ih =>
    simp only [addPair]
    by_cases h : q.1 = p.1
    · rw [if_pos h, keySum_cons (q.1, q.2 + p.2) rest t, keySum_cons q rest t]
      by_cases hqt : q.1 = t
      · have hpt : p.1 = t := by rw [← h]; exact hqt
        simp only [hqt, hpt, if_pos]
        ring
      · have hpt : ¬p.1 = t := fun hp => hqt (by rw [h]; exact hp)
        simp only [hqt, hpt, if_neg, if_false]
        ring
    · rw [if_neg h, keySum_cons q (addPair rest p) t, keySum_cons q rest t, ih]
      ring

theorem addPair_keys (acc : List (ℤ × ℚ)) (p : ℤ × ℚ) (t : ℤ) :
    t ∈ (addPair acc p).map Prod.fst ↔ t ∈ acc.map Prod.fst ∨ t = p.1 := by
  induction acc with
  | nil => simp [addPair, eq_comm]
  | cons q rest ih =>
    simp only [addPair]
    split_ifs with h
    · simp only [List.map_cons, List.mem_cons]
      constructor
      · rintro (he | hm)
        · exact Or.inl (Or.inl he)
        · exact Or.inl (Or.inr hm)
      · rintro ((he | hm) | he)
        · exact Or.inl he
        · exact Or.inr hm
        · exact Or.inl (by rw [he, h])
    · simp only [List.map_cons, List.mem_cons, ih]
      tauto

theorem addPair_nodup (acc : List (ℤ × ℚ)) (p : ℤ × ℚ)
    (h : (acc.map Prod.fst).Nodup) : ((addPair acc p).map Prod.fst).Nodup := by
  induction acc with
  | nil => simp [addPair]
  | cons q rest ih =>
    simp only [List.map_cons, List.nodup_cons] at h
    simp only [addPair]
    split_ifs with he
    · simp only [List.map_cons, List.nodup_cons]
      exact ⟨h.1, h.2⟩
    · simp only [List.map_cons, List.nodup_cons]
      refine ⟨?_, ih h.2⟩
      rw [addPair_keys]
      rintro (hm | hq)
      · exact h.1 hm
      · exact he hq

theorem foldl_addPair_keySum (ps : List (ℤ × ℚ)) :
    ∀ (acc : List (ℤ × ℚ)) (t : ℤ),
      keySum (ps.foldl addPair acc) t = keySum acc t + keySum ps t := by
  induction ps with
  | nil => intro acc t; rw [List.foldl_nil, keySum_nil, add_zero]
  | cons p rest ih =>
    intro acc t
    rw [List.foldl_cons, ih, addPair_keySum, keySum_cons]
    ring

theorem foldl_addPair_keys (ps : List (ℤ × ℚ)) :
    ∀ (acc : List (ℤ × ℚ)) (t : ℤ),
      t ∈ (ps.foldl addPair acc).map Prod.fst ↔
        t ∈ acc.map Prod.fst ∨ t ∈ ps.map Prod.fst := by
  induction ps with
  | nil => intro acc t; simp
  | cons p rest ih =>
    intro acc t
    rw [List.foldl_cons, ih, addPair_keys]
    simp only [List.map_cons, List.mem_cons]
    tauto

theorem foldl_addPair_nodup (ps : List (ℤ × ℚ)) :
    ∀ (acc : List (ℤ × ℚ)), (acc.map Prod.fst).Nodup →
      ((ps.foldl addPair acc).map Prod.fst).Nodup := by
  induction ps with
  | nil => intro acc h; exact h
  | cons p rest ih =>
    intro acc h
    exact ih _ (addPair_nodup acc p h)

theorem agg_keySum (series : List (List (ℤ × ℚ))) :
    ∀ (acc : List (ℤ × ℚ)) (t : ℤ),
      keySum (series.foldl (fun acc s => s.foldl addPair acc) acc) t =
        keySum acc t + keySum series.flatten t := by
  induction series with
  | nil => intro acc t; simp [keySum_nil]
  | cons s rest ih =>
    intro acc t
    rw [List.foldl_cons, ih, foldl_addPair_keySum, List.flatten_cons, keySum_append]
    ring

theorem agg_keys (series : List (List (ℤ × ℚ))) :
    ∀ (acc : List (ℤ × ℚ)) (t : ℤ),
      t ∈ (series.foldl (fun acc s => s.foldl addPair acc) acc).map Prod.fst ↔
        t ∈ acc.map Prod.fst ∨ t ∈ series.flatten.map Prod.fst := by
  induction series with
  | nil => intro acc t; simp
  | cons s rest ih =>
    intro acc t
    rw [List.foldl_cons, ih, foldl_addPair_keys, List.flatten_cons, List.map_append,
      List.mem_append]
    tauto

theorem agg_nodup (series : List (List (ℤ × ℚ))) :
    ((aggregateRangeResult series).map Prod.fst).Nodup := by
  unfold aggregateRangeResult
  generalize hacc : ([] : List (ℤ × ℚ)) = acc
  have hnd : (acc.map Prod.fst).Nodup := by rw [← hacc]; simp
  clear hacc
  induction series generalizing acc with
  | nil => exact hnd
  | cons s rest ih =>
    rw [List.foldl_cons]
    exact ih _ (foldl_addPair_nodup s acc hnd)

/-- C7: the adapter's aggregation-and-sort produces, for every decoded
range-query result, rows that are the per-timestamp sums of the values of
all series, in ascending timestamp order with no duplicate timestamps;
and in particular two series at timestamps `{T, T+60}` with values
`{1, 2}` and `{10, 20}` yield exactly the two rows `(T, 11), (T+60, 22)`
in ascending order. -/
theorem collect_aggregates_sorted :
    (∀ series : List (List (ℤ × ℚ)),
      List.Pairwise (fun a b => a.1 ≤ b.1) (collectRows series) ∧
      ((collectRows series).map Prod.fst).Nodup ∧
      (∀ t v, (t, v) ∈ collectRows series → v = keySum series.flatten t) ∧
      (∀ t, t ∈ (collectRows series).map Prod.fst ↔
        t ∈ series.flatten.map Prod.fst)) ∧
    (∀ T : ℤ, collectRows [[(T, 1), (T + 60, 2)], [(T, 10), (T + 60, 20)]] =
      [(T, 11), (T + 60, 22)]) := by
  constructor
  · intro series
    have hperm : List.Perm (collectRows series) (aggregateRangeResult series) :=
      List.perm_insertionSort _ _
    have hnd : ((collectRows series).map Prod.fst).Nodup :=
      ((hperm.map Prod.fst).nodup_iff).mpr (agg_nodup series)
    refine ⟨List.sorted_insertionSort _ _, hnd, ?_, ?_⟩
    · intro t v hm
      have hks : keySum (collectRows series) t = v := keySum_of_mem _ hnd t v hm
      have hks2 : keySum (collectRows series) t =
          keySum (aggregateRangeResult series) t := by
        unfold keySum
        exact ((hperm.filter _).map Prod.snd).sum_eq
      have hks3 : keySum (aggregateRangeResult series) t = keySum series.flatten t := by
        have h := agg_keySum series [] t
        unfold aggregateRangeResult
        simpa [keySum_nil] using h
      rw [← hks, hks2, hks3]
    · intro t
      rw [(hperm.map Prod.fst).mem_iff]
      have h := agg_keys series [] t
      unfold aggregateRangeResult
      simpa using h
  · intro T
    have h1 : ¬(T = T + 60) := by omega
    have h3 : T ≤ T + 60 := by omega
    simp [collectRows, aggregateRangeResult, addPair, List.insertionSort,
      List.orderedInsert, h1, h3]
    norm_num

/-- Witness for C7: the row at timestamp 0 of the concrete two-series
result carries the sum 11. -/
theorem collect_aggregates_sorted_witness :
    (11 : ℚ) =
      keySum ([[((0 : ℤ), (1 : ℚ)), (60, 2)], [(0, 10), (60, 20)]] :
        List (List (ℤ × ℚ))).flatten 0 :=
  (collect_aggregates_sorted.1 _).2.2.1 0 11 (by with_unfolding_all decide)

/-- C8 (amended): `currentReplicas` is initialised to `policy.MinReplicas`
and is changed exactly by a tick whose collect, feature-build and predict
stages all succeed with a non-empty plan, becoming `desired[0]` — *even
when the subsequent `store.Put` fails*; a tick failing at collect,
feature-build or predict leaves it unchanged.  (The claim as frozen says a
failing `store.Put` also leaves it unchanged; `tick_put_failure_cex`
refutes that: the update happens in `calculateReplicas`, before the
store write.) -/
theorem tick_currentReplicas :
    (∀ (w : String) (p : Policy) (h s : ℤ),
      (Forecaster.New w p h s).currentReplicas = p.MinReplicas) ∧
    (∀ (env : TickEnv) (f : Forecaster) (e : String),
      env.collect = .error e → (tick env f).2 = f) ∧
    (∀ (env : TickEnv) (f : Forecaster) (df : DataFrame) (e : String),
      env.collect = .ok df → BuildFeatures env.parseTs df = .error e →
      (tick env f).2 = f) ∧
    (∀ (env : TickEnv) (f : Forecaster) (df : DataFrame) (ff : FeatureFrame)
        (e : String),
      env.collect = .ok df → BuildFeatures env.parseTs df = .ok ff →
      env.predict ff = .error e → (tick env f).2 = f) ∧
    (∀ (env : TickEnv) (f : Forecaster) (df : DataFrame) (ff : FeatureFrame)
        (fc : Forecast) (d : ℤ) (rest : List ℤ),
      env.collect = .ok df → BuildFeatures env.parseTs df = .ok ff →
      env.predict ff = .ok fc →
      ToReplicas f.currentReplicas fc.Values f.step f.policy = d :: rest →
      (tick env f).2.currentReplicas = d) := by
  refine ⟨fun _ _ _ _ => rfl, ?_, ?_, ?_, ?_⟩
  · intro env f e hc
    simp [tick, hc]
  · intro env f df e hc hb
    simp [tick, hc, hb]
  · intro env f df ff e hc hb hp
    simp [tick, hc, hb, hp]
  · intro env f df ff fc d rest hc hb hp hplan
    simp only [tick, hc, hb, hp, calculateReplicas, hplan]
    cases hput : storeSnapshot env { f with currentReplicas := d } fc (d :: rest) with
    | error e => simp [hput]
    | ok u => simp [hput]

/-- Counterexample for C8 as frozen: a tick whose `store.Put` fails (so the
tick as a whole fails with `store:` prefixed error) still advances
`currentReplicas` from 1 to the freshly planned `desired[0] = 2`. -/
theorem tick_put_failure_cex :
    (tick
        { collect := .ok ⟨[{ value := some (.num 1) }]⟩,
          predict := fun _ => .ok ⟨"m", [100], 60, 60⟩,
          put := fun _ => .error "boom",
          parseTs := fun _ => none,
          now := 0 }
        (Forecaster.New "w" ⟨1, 1, 0, 1, 0, 2, 0, 0, "ceil"⟩ 60 60)).1 =
      .error "store: boom" ∧
    (Forecaster.New "w" ⟨1, 1, 0, 1, 0, 2, 0, 0, "ceil"⟩ 60 60).currentReplicas = 1 ∧
    (tick
        { collect := .ok ⟨[{ value := some (.num 1) }]⟩,
          predict := fun _ => .ok ⟨"m", [100], 60, 60⟩,
          put := fun _ => .error "boom",
          parseTs := fun _ => none,
          now := 0 }
        (Forecaster.New "w" ⟨1, 1, 0, 1, 0, 2, 0, 0, "ceil"⟩ 60 60)).2.currentReplicas = 2 :=
  ⟨by with_unfolding_all decide, by decide, by with_unfolding_all decide⟩

/-- Witness for the amended C8: the same failing-put environment, where the
final conjunct of `tick_currentReplicas` yields `currentReplicas = 2`. -/
theorem tick_currentReplicas_witness :
    (tick
        { collect := .ok ⟨[{ value := some (.num 1) }]⟩,
          predict := fun _ => .ok ⟨"m", [100], 60, 60⟩,
          put := fun _ => .error "boom",
          parseTs := fun _ => none,
          now := 0 }
        (Forecaster.New "w" ⟨1, 1, 0, 1, 0, 2, 0, 0, "ceil"⟩ 60 60)).2.currentReplicas = 2 :=
  tick_currentReplicas.2.2.2.2 _ _ ⟨[{ value := some (.num 1) }]⟩
    ⟨[{ value := some 1 }]⟩ ⟨"m", [100], 60, 60⟩ 2 []
    rfl (by with_unfolding_all decide) rfl (by with_unfolding_all decide)

/-- C9: `GET /forecast/current` — a missing (empty) `workload` parameter
yields 400 with body `{"error": "workload parameter required"}`; a
workload with no stored snapshot yields 404 with body
`{"error": "snapshot not found for workload \"<w>\""}`; and a 200 response
carries `X-Kedastral-Stale: true` exactly when
`now − generatedAt > staleAfter`. -/
theorem handleGetSnapshot_spec :
    (∀ (gl : Except String (Option Snapshot)) (now sa : ℤ),
      handleGetSnapshot "" gl now sa =
        ⟨400, some "workload parameter required", false⟩) ∧
    (∀ (w : String) (now sa : ℤ), w ≠ "" →
      handleGetSnapshot w (.ok none) now sa =
        ⟨404, some ("snapshot not found for workload \"" ++ w ++ "\""), false⟩) ∧
    (∀ (w : String) (snap : Snapshot) (now sa : ℤ), w ≠ "" →
      (handleGetSnapshot w (.ok (some snap)) now sa).status = 200 ∧
      ((handleGetSnapshot w (.ok (some snap)) now sa).stale = true ↔
        sa < now - snap.GeneratedAt)) := by
  refine ⟨fun gl now sa => rfl, ?_, ?_⟩
  · intro w now sa hw
    simp [handleGetSnapshot, hw]
  · intro w snap now sa hw
    refine ⟨by simp [handleGetSnapshot, hw], ?_⟩
    simp only [handleGetSnapshot, if_neg hw]
    split_ifs with h <;> simp [h]

/-- Witness for C9: the 404 body for workload `api`, and the stale header
for a snapshot generated at 0 served at 100 with `staleAfter = 50`. -/
theorem handleGetSnapshot_spec_witness :
    handleGetSnapshot "api" (.ok none) 0 0 =
      ⟨404, some ("snapshot not found for workload \"" ++ "api" ++ "\""), false⟩ ∧
    ((handleGetSnapshot "api" (.ok (some ⟨"api", "m", 0, 60, 1800, [1], [1]⟩))
        100 50).stale = true ↔ (50 : ℤ) < 100 - 0) :=
  ⟨handleGetSnapshot_spec.2.1 "api" 0 0 (by decide),
   (handleGetSnapshot_spec.2.2 "api" ⟨"api", "m", 0, 60, 1800, [1], [1]⟩ 100 50
      (by decide)).2⟩

/-- C10: for every non-empty `DataFrame` in which no row carries a `value`
field coercible to a number (string-typed values are not coerced), and for
every timestamp parser, `BuildFeatures` returns the error
`no valid rows with value field` — never an empty `FeatureFrame`. -/
theorem buildFeatures_no_coercible (parseTs : GoVal → Option TimeParts)
    (df : DataFrame) (hne : df.Rows ≠ [])
    (hnc : ∀ r ∈ df.Rows, r.value.bind toFloat64 = none) :
    BuildFeatures parseTs df = .error "no valid rows with value field" := by
  simp only [BuildFeatures, if_neg hne]
  split_ifs with hrows
  · rfl
  · exfalso
    apply hrows
    rw [List.filterMap_eq_nil_iff]
    intro r hr
    have hn := hnc r hr
    cases hv : r.value with
    | none => simp
    | some raw =>
      rw [hv] at hn
      have h2 : toFloat64 raw = none := by simpa using hn
      simp [h2]

/-- Witness for C10: a single row whose `value` is the string `"12"`. -/
theorem buildFeatures_no_coercible_witness :
    BuildFeatures (fun _ => none) ⟨[{ value := some (.str "12") }]⟩ =
      .error "no valid rows with value field" :=
  buildFeatures_no_coercible _ _ (by simp) (by with_unfolding_all decide)

end Kedastral
